import Mathlib

/-!
# Verification of the enrichee concurrent task-processing core

Shallow embedding of the scheduler, rate limiter and retrying-caller logic
of the repository (`profile_processor.py`, `ai_service.py`), together with
theorems settling the specification claims about them.

Conventions: wall-clock timestamps are rationals (`ℚ`), machine strings are
Lean `String`s, fallible calls return `Except String α`, and the mutable
Python objects become explicit state records threaded through the
operations.
-/

namespace Enrichee

/-! ## Rate limiter (`ai_service.py`, class `RateLimiter`)

The Python object holds, per provider, a deque of request timestamps and a
requests-per-minute ceiling.  `can_make_request` prunes timestamps older
than 60 seconds then compares the window length to the ceiling;
`record_request` appends the current time.  Any provider string other than
`"openai"` falls into the `else` branch, i.e. the perplexity bucket. -/

structure RateLimiter where
  openai_rpm_limit : Nat
  openai_request_times : List ℚ
  perplexity_rpm_limit : Nat
  perplexity_request_times : List ℚ
deriving DecidableEq

/-- Constructor `RateLimiter.__init__`: the openai ceiling is the constructor argument,
the perplexity ceiling is hard-coded to 1000, both windows start empty. -/
def RateLimiter.init (openai_rpm_limit : Nat) : RateLimiter :=
  { openai_rpm_limit := openai_rpm_limit
    openai_request_times := []
    perplexity_rpm_limit := 1000
    perplexity_request_times := [] }

/-- The `while request_times and current_time - request_times[0] > 60:
popleft()` loop: drop leading timestamps older than 60 seconds, stopping at
the first young one. -/
def prune (now : ℚ) : List ℚ → List ℚ
  | [] => []
  | t :: rest => if now - t > 60 then prune now rest else t :: rest

/-- Method `RateLimiter.can_make_request`: prunes the chosen provider's window
(a mutation of the deque, hence the updated state in the result) and
returns whether its length is strictly below the ceiling. -/
def canMakeRequest (now : ℚ) (provider : String) (st : RateLimiter) :
    Bool × RateLimiter :=
  if provider = "openai" then
    let ts := prune now st.openai_request_times
    (decide (ts.length < st.openai_rpm_limit),
      { st with openai_request_times := ts })
  else
    let ts := prune now st.perplexity_request_times
    (decide (ts.length < st.perplexity_rpm_limit),
      { st with perplexity_request_times := ts })

/-- Method `RateLimiter.record_request`: append the current time to the chosen
provider's window. -/
def recordRequest (now : ℚ) (provider : String) (st : RateLimiter) :
    RateLimiter :=
  if provider = "openai" then
    { st with openai_request_times := st.openai_request_times ++ [now] }
  else
    { st with perplexity_request_times := st.perplexity_request_times ++ [now] }

/-- Method `RateLimiter.wait_for_rate_limit`: repeatedly call `can_make_request`
(each call prunes) until admitted.  The list supplies the times at which
the successive checks happen; the result is the limiter state at admission,
or `none` if the supplied checks run out before admission. -/
def waitForRateLimit (times : List ℚ) (provider : String) (st : RateLimiter) :
    Option RateLimiter :=
  match times with
  | [] => none
  | t :: rest =>
    let p := canMakeRequest t provider st
    if p.1 then some p.2 else waitForRateLimit rest provider p.2

/-- One admission-then-record round: a `can_make_request` check at time
`now` followed, only if admitted, by `record_request` at the same time.
This is the discipline the callers (`research_call` / `email_call`) follow:
every recorded request was first admitted. -/
def admitThenRecord (now : ℚ) (provider : String) (st : RateLimiter) :
    RateLimiter :=
  let p := canMakeRequest now provider st
  if p.1 then recordRequest now provider p.2 else p.2

/-- Run a sequence of admission-then-record rounds from a freshly
constructed limiter. -/
def runLimiter (openaiLimit : Nat) (events : List (ℚ × String)) : RateLimiter :=
  events.foldl (fun st e => admitThenRecord e.1 e.2 st) (RateLimiter.init openaiLimit)

/-- Number of recorded timestamps lying in the trailing 60-second window
ending at `now`. -/
def windowCount (now : ℚ) (ts : List ℚ) : Nat :=
  ts.countP (fun t => decide (now - t ≤ 60) && decide (t ≤ now))

/-- Method `AIService.update_rate_limit`: overwrite the openai ceiling only. -/
def updateRateLimit (n : Nat) (st : RateLimiter) : RateLimiter :=
  { st with openai_rpm_limit := n }

lemma prune_length_le (now : ℚ) (ts : List ℚ) :
    (prune now ts).length ≤ ts.length := by
  induction ts with
  | nil => simp [prune]
  | cons t rest ih =>
    simp only [prune]
    split
    · exact Nat.le_succ_of_le ih
    · simp

/-- The two window lengths never exceed the respective ceilings, and both
ceilings are unchanged, across one admission-then-record round. -/
lemma admitThenRecord_inv (L : Nat) (now : ℚ) (p : String) (st : RateLimiter)
    (h : st.openai_rpm_limit = L ∧ st.perplexity_rpm_limit = 1000 ∧
      st.openai_request_times.length ≤ L ∧
      st.perplexity_request_times.length ≤ 1000) :
    (admitThenRecord now p st).openai_rpm_limit = L ∧
    (admitThenRecord now p st).perplexity_rpm_limit = 1000 ∧
    (admitThenRecord now p st).openai_request_times.length ≤ L ∧
    (admitThenRecord now p st).perplexity_request_times.length ≤ 1000 := by
  obtain ⟨h1, h2, h3, h4⟩ := h
  by_cases hp : p = "openai" <;>
    simp only [admitThenRecord, canMakeRequest, hp, if_pos, if_neg,
      ite_true, ite_false, recordRequest] <;>
    split <;>
    rename_i hadm <;>
    simp_all <;>
    first
      | exact le_trans (prune_length_le _ _) (by omega)
      | omega

lemma runLimiter_inv (L : Nat) (events : List (ℚ × String)) :
    (runLimiter L events).openai_rpm_limit = L ∧
    (runLimiter L events).perplexity_rpm_limit = 1000 ∧
    (runLimiter L events).openai_request_times.length ≤ L ∧
    (runLimiter L events).perplexity_request_times.length ≤ 1000 := by
  suffices h : ∀ (es : List (ℚ × String)) (st : RateLimiter),
      (st.openai_rpm_limit = L ∧ st.perplexity_rpm_limit = 1000 ∧
        st.openai_request_times.length ≤ L ∧
        st.perplexity_request_times.length ≤ 1000) →
      (es.foldl (fun st e => admitThenRecord e.1 e.2 st) st).openai_rpm_limit = L ∧
      (es.foldl (fun st e => admitThenRecord e.1 e.2 st) st).perplexity_rpm_limit = 1000 ∧
      (es.foldl (fun st e => admitThenRecord e.1 e.2 st) st).openai_request_times.length ≤ L ∧
      (es.foldl (fun st e => admitThenRecord e.1 e.2 st) st).perplexity_request_times.length ≤ 1000 by
    exact h events (RateLimiter.init L) (by simp [RateLimiter.init])
  intro es
  induction es with
  | nil => intro st h; simpa using h
  | cons e rest ih =>
    intro st h
    exact ih _ (admitThenRecord_inv L e.1 e.2 st h)

lemma windowCount_le_length (now : ℚ) (ts : List ℚ) :
    windowCount now ts ≤ ts.length :=
  List.countP_le_length _

/-- Claim C4: For any openai ceiling and any sequence of
admission-then-record rounds (each `record_request` preceded by an
admitting `can_make_request` at the same instant), the number of recorded
timestamps in any trailing 60-second window never exceeds the provider's
configured ceiling: the constructor argument for openai, 1000 for
perplexity. -/
theorem rateLimiter_window_bounded (L : Nat) (events : List (ℚ × String)) (T : ℚ) :
    windowCount T (runLimiter L events).openai_request_times ≤ L ∧
    windowCount T (runLimiter L events).perplexity_request_times ≤ 1000 := by
  obtain ⟨-, -, h3, h4⟩ := runLimiter_inv L events
  exact ⟨le_trans (windowCount_le_length _ _) h3,
    le_trans (windowCount_le_length _ _) h4⟩

/-- Claim C9: `update_rate_limit` changes only the openai ceiling: both
providers' recorded windows and the perplexity ceiling are untouched. -/
theorem updateRateLimit_frame (st : RateLimiter) (n : Nat) :
    (updateRateLimit n st).openai_request_times = st.openai_request_times ∧
    (updateRateLimit n st).perplexity_request_times = st.perplexity_request_times ∧
    (updateRateLimit n st).perplexity_rpm_limit = st.perplexity_rpm_limit ∧
    (updateRateLimit n st).openai_rpm_limit = n :=
  ⟨rfl, rfl, rfl, rfl⟩

/-- Claim C10: Every limiter operation called with any provider string other
than `"openai"` behaves exactly as if called with `"perplexity"`: it
operates on the single perplexity window, whose ceiling is fixed at 1000
by the constructor and never altered by any operation. -/
theorem limiter_two_buckets (s : String) (hs : s ≠ "openai") (L n : Nat)
    (now : ℚ) (times : List ℚ) (st : RateLimiter) :
    canMakeRequest now s st = canMakeRequest now "perplexity" st ∧
    recordRequest now s st = recordRequest now "perplexity" st ∧
    waitForRateLimit times s st = waitForRateLimit times "perplexity" st ∧
    (canMakeRequest now s st).1 =
      decide ((prune now st.perplexity_request_times).length < st.perplexity_rpm_limit) ∧
    (RateLimiter.init L).perplexity_rpm_limit = 1000 ∧
    (recordRequest now s st).perplexity_rpm_limit = st.perplexity_rpm_limit ∧
    (admitThenRecord now s st).perplexity_rpm_limit = st.perplexity_rpm_limit ∧
    (updateRateLimit n st).perplexity_rpm_limit = st.perplexity_rpm_limit := by
  have hcan : ∀ (t : ℚ) (st' : RateLimiter),
      canMakeRequest t s st' = canMakeRequest t "perplexity" st' := by
    intro t st'
    simp [canMakeRequest, hs]
  have hwait : ∀ (ts : List ℚ) (st' : RateLimiter),
      waitForRateLimit ts s st' = waitForRateLimit ts "perplexity" st' := by
    intro ts
    induction ts with
    | nil => intro st'; rfl
    | cons t rest ih =>
      intro st'
      simp only [waitForRateLimit, hcan]
      split <;> simp [ih]
  refine ⟨hcan now st, ?_, hwait times st, ?_, rfl, ?_, ?_, rfl⟩
  · simp [recordRequest, hs]
  · simp [canMakeRequest, hs]
  · simp [recordRequest, hs]
  · simp [admitThenRecord, canMakeRequest, recordRequest, hs]
    split <;> rfl

/-! ## Retrying caller (`ai_service.py`, `@retry(...)` on `research_call`
and `email_call`)

Tenacity's `stop_after_attempt(maxAttempts)` with `reraise=True` and
`retry_if_exception_type(Exception)` calls the wrapped function up to
`maxAttempts` times, sleeping a bounded exponential backoff between
attempts and re-raising the last error when the attempts are exhausted.
Inside the wrapped body, a caught exception whose message matches the
rate-limit phrases triggers an extra fixed `time.sleep` (5 s in
`research_call`, 10 s in `email_call`) before the exception is re-raised
to the retry machinery.

The call being embedded is a function of the 0-based attempt index,
returning `Except String α` (error = Python exception carrying its
message).  `retryLoop` returns the final result, the number of
invocations, and the chronological list of sleep durations. -/

/-- Python's `needle in hay` on strings, as character lists: `needle`
occurs contiguously inside `hay` (the empty needle always occurs). -/
def containsSub (needle : List Char) : List Char → Bool
  | [] => needle.isEmpty
  | c :: rest => needle.isPrefixOf (c :: rest) || containsSub needle rest

/-- Python's `str.lower()` on one character (ASCII range, which covers the
phrases being matched). -/
def lowerChar (c : Char) : Char :=
  if 65 ≤ c.toNat ∧ c.toNat ≤ 90 then Char.ofNat (c.toNat + 32) else c

/-- Python's `str.lower()`, as a character list. -/
def lowerStr (s : String) : List Char := s.data.map lowerChar

/-- The phrase list of `AIService._is_rate_limit_error`. -/
def rateLimitPhrases : List String :=
  ["rate limit", "too many requests", "429", "quota exceeded",
   "requests per minute", "rpm", "rate_limit_exceeded"]

/-- Method `AIService._is_rate_limit_error`: lower-case the message and test each
phrase for substring containment. -/
def isRateLimitError (msg : String) : Bool :=
  rateLimitPhrases.any (fun p => containsSub p.data (lowerStr msg))

/-- Tenacity's `wait_exponential(multiplier, min, max)` at a given 1-based
attempt number: `multiplier * 2^attempt` clamped to `[min, max]`. -/
def waitExp (mult minW maxW : ℚ) (attempt : Nat) : ℚ :=
  max minW (min maxW (mult * 2 ^ attempt))

/-- The retry loop: `isRL` classifies error messages, `penalty` is the
extra in-body sleep on a rate-limit error, `backoff` gives the standard
between-attempt sleep, `fn i` is the i-th invocation of the wrapped body,
`i` the current 0-based attempt index and `left` the attempts remaining
(including the current one).  Returns (result, invocation count, sleeps in
order). -/
def retryLoop {α : Type} (isRL : String → Bool) (penalty : ℚ)
    (backoff : Nat → ℚ) (fn : Nat → Except String α) :
    Nat → Nat → Except String α × Nat × List ℚ
  | _, 0 => (Except.error "", 0, [])
  | i, left + 1 =>
    match fn i with
    | Except.ok v => (Except.ok v, 1, [])
    | Except.error e =>
      let pen : List ℚ := if isRL e then [penalty] else []
      match left with
      | 0 => (Except.error e, 1, pen)
      | l + 1 =>
        let r := retryLoop isRL penalty backoff fn (i + 1) (l + 1)
        (r.1, r.2.1 + 1, pen ++ backoff (i + 1) :: r.2.2)

/-- The retry machinery of `AIService.research_call`: 5 attempts, penalty 5 s,
backoff `wait_exponential(multiplier=2, min=4, max=60)`. -/
def researchRetry {α : Type} (fn : Nat → Except String α) (i left : Nat) :
    Except String α × Nat × List ℚ :=
  retryLoop isRateLimitError 5 (waitExp 2 4 60) fn i left

/-- The retry machinery of `AIService.email_call`: 5 attempts, penalty 10 s,
same backoff. -/
def emailRetry {α : Type} (fn : Nat → Except String α) (i left : Nat) :
    Except String α × Nat × List ℚ :=
  retryLoop isRateLimitError 10 (waitExp 2 4 60) fn i left

lemma retryLoop_ok {α : Type} {isRL : String → Bool} {penalty : ℚ}
    {backoff : Nat → ℚ} {fn : Nat → Except String α} {i : Nat} {v : α}
    (h : fn i = Except.ok v) (left : Nat) :
    retryLoop isRL penalty backoff fn i (left + 1) = (Except.ok v, 1, []) := by
  have h2 := retryLoop.eq_2 isRL penalty backoff fn i left
  rw [h] at h2
  exact h2

lemma retryLoop_err_last {α : Type} {isRL : String → Bool} {penalty : ℚ}
    {backoff : Nat → ℚ} {fn : Nat → Except String α} {i : Nat} {e : String}
    (h : fn i = Except.error e) :
    retryLoop isRL penalty backoff fn i 1 =
      (Except.error e, 1, if isRL e then [penalty] else []) := by
  have h2 := retryLoop.eq_2 isRL penalty backoff fn i 0
  rw [h] at h2
  exact h2

lemma retryLoop_err_step {α : Type} {isRL : String → Bool} {penalty : ℚ}
    {backoff : Nat → ℚ} {fn : Nat → Except String α} {i : Nat} {e : String}
    (h : fn i = Except.error e) (l : Nat) :
    retryLoop isRL penalty backoff fn i (l + 2) =
      ((retryLoop isRL penalty backoff fn (i + 1) (l + 1)).1,
       (retryLoop isRL penalty backoff fn (i + 1) (l + 1)).2.1 + 1,
       (if isRL e then [penalty] else []) ++
         backoff (i + 1) :: (retryLoop isRL penalty backoff fn (i + 1) (l + 1)).2.2) := by
  have h2 := retryLoop.eq_2 isRL penalty backoff fn i (l + 1)
  rw [h] at h2
  exact h2

lemma retryLoop_succeeds {α : Type} (isRL : String → Bool) (penalty : ℚ)
    (backoff : Nat → ℚ) (fn : Nat → Except String α) (v : α) :
    ∀ (maxA i k : Nat), k < maxA →
      (∀ j, j < k → ∃ e, fn (i + j) = Except.error e) →
      fn (i + k) = Except.ok v →
      (retryLoop isRL penalty backoff fn i maxA).1 = Except.ok v ∧
      (retryLoop isRL penalty backoff fn i maxA).2.1 = k + 1 := by
  intro maxA
  induction maxA with
  | zero => intro i k hk; omega
  | succ l ih =>
    intro i k hk hfail hok
    match k with
    | 0 =>
      rw [Nat.add_zero] at hok
      rw [retryLoop_ok hok]
      exact ⟨rfl, rfl⟩
    | m + 1 =>
      obtain ⟨e, he⟩ := hfail 0 (Nat.succ_pos m)
      rw [Nat.add_zero] at he
      have hl : m < l := by omega
      match l, hl with
      | l' + 1, _ =>
        have ihm := ih (i + 1) m (by omega)
          (fun j hj => by
            obtain ⟨e', he'⟩ := hfail (j + 1) (by omega)
            refine ⟨e', ?_⟩
            rw [show i + 1 + j = i + (j + 1) by omega]
            exact he')
          (by rw [show i + 1 + m = i + (m + 1) by omega]; exact hok)
        rw [retryLoop_err_step he l']
        exact ⟨ihm.1, by rw [ihm.2]⟩

lemma retryLoop_exhausts {α : Type} (isRL : String → Bool) (penalty : ℚ)
    (backoff : Nat → ℚ) (fn : Nat → Except String α) (em : Nat → String)
    (hall : ∀ j, fn j = Except.error (em j)) :
    ∀ (n i : Nat),
      (retryLoop isRL penalty backoff fn i (n + 1)).1 = Except.error (em (i + n)) ∧
      (retryLoop isRL penalty backoff fn i (n + 1)).2.1 = n + 1 := by
  intro n
  induction n with
  | zero =>
    intro i
    rw [retryLoop_err_last (hall i)]
    exact ⟨by rw [Nat.add_zero], rfl⟩
  | succ m ih =>
    intro i
    have hrec := ih (i + 1)
    rw [retryLoop_err_step (hall i) m]
    constructor
    · rw [hrec.1, show i + 1 + m = i + (m + 1) by omega]
    · rw [hrec.2]

/-- Claim C5: The retrying caller with attempt ceiling `maxAttempts`: a body
that fails on its first `k < maxAttempts` invocations and then succeeds
makes the call return the success value after exactly `k + 1` invocations;
a body that always fails makes the call return the last error after
exactly `maxAttempts` invocations, with no further invocation. -/
theorem retryingCaller_semantics {α : Type} (isRL : String → Bool)
    (penalty : ℚ) (backoff : Nat → ℚ) (fn : Nat → Except String α)
    (maxAttempts : Nat) :
    (∀ (k : Nat) (v : α), k < maxAttempts →
      (∀ j, j < k → ∃ e, fn j = Except.error e) →
      fn k = Except.ok v →
      (retryLoop isRL penalty backoff fn 0 maxAttempts).1 = Except.ok v ∧
      (retryLoop isRL penalty backoff fn 0 maxAttempts).2.1 = k + 1) ∧
    (∀ em : Nat → String, (∀ j, fn j = Except.error (em j)) →
      1 ≤ maxAttempts →
      (retryLoop isRL penalty backoff fn 0 maxAttempts).1 =
        Except.error (em (maxAttempts - 1)) ∧
      (retryLoop isRL penalty backoff fn 0 maxAttempts).2.1 = maxAttempts) := by
  constructor
  · intro k v hk hfail hok
    exact retryLoop_succeeds isRL penalty backoff fn v maxAttempts 0 k hk
      (fun j hj => by rw [Nat.zero_add]; exact hfail j hj)
      (by rw [Nat.zero_add]; exact hok)
  · intro em hall h1
    match maxAttempts, h1 with
    | n + 1, _ =>
      have h := retryLoop_exhausts isRL penalty backoff fn em hall n 0
      rw [Nat.zero_add] at h
      simpa using h

/-- Witness for C5: a body failing once then returning 7, under a
5-attempt ceiling, yields 7 in exactly 2 invocations. -/
theorem retryingCaller_semantics_witness :
    (retryLoop (fun _ => false) 0 (fun _ => 0)
        (fun j => if j = 0 then Except.error "boom" else Except.ok 7) 0 5).1 =
      Except.ok 7 ∧
    (retryLoop (fun _ => false) 0 (fun _ => 0)
        (fun j => if j = 0 then Except.error "boom" else Except.ok 7) 0 5).2.1 = 2 :=
  (retryingCaller_semantics (fun _ => false) 0 (fun _ => 0)
      (fun j => if j = 0 then Except.error "boom" else Except.ok 7) 5).1
    1 7 (by decide)
    (fun j hj => ⟨"boom", by
      have : j = 0 := Nat.lt_one_iff.mp hj
      simp [this]⟩)
    (by simp)

/-- Claim C8: An error whose message contains (case-insensitively) one of the
rate-limit indicator substrings is classified as a rate-limit error, and on
such an error with a retry still to come, the fixed penalty sleep — 5 s in
the research caller, 10 s in the email caller — is applied in addition to
and before the standard backoff preceding the next attempt. -/
theorem rateLimit_penalty_sleep :
    (∀ msg : String,
      (containsSub "rate limit".data (lowerStr msg) = true ∨
       containsSub "too many requests".data (lowerStr msg) = true ∨
       containsSub "429".data (lowerStr msg) = true ∨
       containsSub "quota exceeded".data (lowerStr msg) = true ∨
       containsSub "rpm".data (lowerStr msg) = true ∨
       containsSub "rate_limit_exceeded".data (lowerStr msg) = true) →
      isRateLimitError msg = true) ∧
    (∀ {α : Type} (fn : Nat → Except String α) (i l : Nat) (e : String),
      fn i = Except.error e → isRateLimitError e = true →
      (researchRetry fn i (l + 2)).2.2 =
        5 :: waitExp 2 4 60 (i + 1) :: (researchRetry fn (i + 1) (l + 1)).2.2 ∧
      (emailRetry fn i (l + 2)).2.2 =
        10 :: waitExp 2 4 60 (i + 1) :: (emailRetry fn (i + 1) (l + 1)).2.2) := by
  constructor
  · intro msg h
    simp only [isRateLimitError, rateLimitPhrases, List.any_cons, List.any_nil,
      Bool.or_eq_true, Bool.or_false]
    rcases h with h | h | h | h | h | h <;> simp [h]
  · intro α fn i l e hfe hrl
    refine ⟨?_, ?_⟩
    · show (retryLoop isRateLimitError 5 (waitExp 2 4 60) fn i (l + 2)).2.2 = _
      rw [retryLoop_err_step hfe l, hrl]
      rfl
    · show (retryLoop isRateLimitError 10 (waitExp 2 4 60) fn i (l + 2)).2.2 = _
      rw [retryLoop_err_step hfe l, hrl]
      rfl

/-- Witness for C8: the message "HTTP 429 Too Many Requests" is classified
as a rate-limit error, and with a body failing on that message the penalty
sleeps 5 and 10 precede the backoff to the next attempt. -/
theorem rateLimit_penalty_sleep_witness :
    isRateLimitError "HTTP 429 Too Many Requests" = true ∧
    (researchRetry (fun _ => (Except.error "HTTP 429 Too Many Requests" :
        Except String Nat)) 0 2).2.2 =
      5 :: waitExp 2 4 60 1 :: (researchRetry (fun _ =>
        (Except.error "HTTP 429 Too Many Requests" : Except String Nat)) 1 1).2.2 ∧
    (emailRetry (fun _ => (Except.error "HTTP 429 Too Many Requests" :
        Except String Nat)) 0 2).2.2 =
      10 :: waitExp 2 4 60 1 :: (emailRetry (fun _ =>
        (Except.error "HTTP 429 Too Many Requests" : Except String Nat)) 1 1).2.2 := by
  have hcls : isRateLimitError "HTTP 429 Too Many Requests" = true :=
    rateLimit_penalty_sleep.1 "HTTP 429 Too Many Requests"
      (Or.inr (Or.inr (Or.inl (by decide))))
  have hpen := rateLimit_penalty_sleep.2
    (fun _ => (Except.error "HTTP 429 Too Many Requests" : Except String Nat))
    0 0 "HTTP 429 Too Many Requests" rfl hcls
  exact ⟨hcls, hpen.1, hpen.2⟩

/-- Witness for C10 at a concrete provider string and limiter state. -/
theorem limiter_two_buckets_witness :
    canMakeRequest 7 "gemini" (RateLimiter.init 5) =
      canMakeRequest 7 "perplexity" (RateLimiter.init 5) ∧
    recordRequest 7 "gemini" (RateLimiter.init 5) =
      recordRequest 7 "perplexity" (RateLimiter.init 5) ∧
    waitForRateLimit [7] "gemini" (RateLimiter.init 5) =
      waitForRateLimit [7] "perplexity" (RateLimiter.init 5) ∧
    (canMakeRequest 7 "gemini" (RateLimiter.init 5)).1 =
      decide ((prune 7 (RateLimiter.init 5).perplexity_request_times).length <
        (RateLimiter.init 5).perplexity_rpm_limit) ∧
    (RateLimiter.init 3).perplexity_rpm_limit = 1000 ∧
    (recordRequest 7 "gemini" (RateLimiter.init 5)).perplexity_rpm_limit =
      (RateLimiter.init 5).perplexity_rpm_limit ∧
    (admitThenRecord 7 "gemini" (RateLimiter.init 5)).perplexity_rpm_limit =
      (RateLimiter.init 5).perplexity_rpm_limit ∧
    (updateRateLimit 4 (RateLimiter.init 5)).perplexity_rpm_limit =
      (RateLimiter.init 5).perplexity_rpm_limit :=
  limiter_two_buckets "gemini" (by decide) 3 4 7 [7] (RateLimiter.init 5)

/-! ## Scheduler (`profile_processor.py`, `ProfileProcessor.process_profiles`)

The processing loop keeps a futures-to-profile map (here: the `pending`
list of tasks), seeded by two scans over the dataframe rows: a `research`
task for every row with an empty `research` cell, then an `email` task for
every row with a non-empty `research` cell and an empty `draft` cell.
Completed futures are consumed in an arbitrary order (here: the `sched`
list of completion choices; choices not in `pending` model `as_completed`
timeouts and are skipped).  A successful result is written into the
dataframe, queued as a sheet update, and — when the completed task is a
`research` task and the row's `draft` cell is still empty — a follow-on
`email` task is submitted.  Every completion (success or failure)
increments `processed`, reports `min(processed / (total*2), 1.0)` and, on
failure, increments `failed`.  The outcome of the provider call for a task
is the oracle's value: `some v` is a result after internal retries, `none`
is a permanently failed call (the exception caught at `future.result()`).
The `trace` records submissions and completions for the event-ordering
statements. -/

inductive Stage where
  | research
  | email
deriving DecidableEq

/-- A scheduled unit of work: row index and stage. -/
abbrev Task := Nat × Stage

structure Record where
  research : String
  draft : String
deriving DecidableEq

inductive Event where
  | submitted (idx : Nat) (stage : Stage)
  | completed (idx : Nat) (stage : Stage) (ok : Bool)
deriving DecidableEq

/-- First scan: `for idx, row in df.iterrows(): if not row["research"]` —
a research task per row with an empty research cell (`k` is the index of
the first row of the slice). -/
def researchTasks : Nat → List Record → List Task
  | _, [] => []
  | k, r :: rest =>
    (if r.research = "" then [(k, Stage.research)] else []) ++
      researchTasks (k + 1) rest

/-- Second scan: `if row["research"] and not row["draft"]` — an email task
per row with research already present and no draft. -/
def emailTasks : Nat → List Record → List Task
  | _, [] => []
  | k, r :: rest =>
    (if r.research ≠ "" ∧ r.draft = "" then [(k, Stage.email)] else []) ++
      emailTasks (k + 1) rest

/-- The initial task set submitted to the pool. -/
def initTasks (records : List Record) : List Task :=
  researchTasks 0 records ++ emailTasks 0 records

structure SchedState where
  df : List Record
  pending : List Task
  processed : Nat
  failed : Nat
  updates : List (Nat × Stage × String)
  reports : List ℚ
  trace : List Event
  total : Nat
deriving DecidableEq

/-- The row's `draft` cell (out-of-range reads as empty; the loop only
ever uses in-range indices). -/
def draftOf (df : List Record) (idx : Nat) : String :=
  ((df.get? idx).map Record.draft).getD ""

/-- Cell write `df.at[idx, task_type] = result`. -/
def setField : List Record → Nat → Stage → String → List Record
  | [], _, _, _ => []
  | r :: rest, 0, Stage.research, v => { r with research := v } :: rest
  | r :: rest, 0, Stage.email, v => { r with draft := v } :: rest
  | r :: rest, n + 1, s, v => r :: setField rest n s v

/-- Pop one future from the map (`future_to_profile.pop(future)`): remove
the first occurrence of the chosen task. -/
def removeOne (t : Task) : List Task → List Task
  | [] => []
  | u :: rest => if u = t then rest else u :: removeOne t rest

/-- Occurrences of a task in a task list. -/
def countT (t : Task) : List Task → Nat
  | [] => 0
  | u :: rest => (if u = t then 1 else 0) + countT t rest

/-- Consume one completed future `c`.  A choice not in the map is a
timeout tick and changes nothing. -/
def step (oracle : Nat → Stage → Option String) (st : SchedState) :
    Task → SchedState
  | (idx, stage) =>
    if (idx, stage) ∈ st.pending then
      let pending' := removeOne (idx, stage) st.pending
      match oracle idx stage with
      | some v =>
        let df' := setField st.df idx stage v
        if stage = Stage.research ∧ draftOf df' idx = "" then
          { df := df'
            pending := pending' ++ [(idx, Stage.email)]
            processed := st.processed + 1
            failed := st.failed
            updates := st.updates ++ [(idx, stage, v)]
            reports := st.reports ++
              [min (((st.processed + 1 : Nat) : ℚ) / ((st.total : ℚ) * 2)) 1]
            trace := st.trace ++
              [Event.completed idx stage true, Event.submitted idx Stage.email]
            total := st.total }
        else
          { df := df'
            pending := pending'
            processed := st.processed + 1
            failed := st.failed
            updates := st.updates ++ [(idx, stage, v)]
            reports := st.reports ++
              [min (((st.processed + 1 : Nat) : ℚ) / ((st.total : ℚ) * 2)) 1]
            trace := st.trace ++ [Event.completed idx stage true]
            total := st.total }
      | none =>
        { df := st.df
          pending := pending'
          processed := st.processed + 1
          failed := st.failed + 1
          updates := st.updates
          reports := st.reports ++
            [min (((st.processed + 1 : Nat) : ℚ) / ((st.total : ℚ) * 2)) 1]
          trace := st.trace ++ [Event.completed idx stage false]
          total := st.total }
    else st

/-- The loop's starting state for a batch of records. -/
def initState (records : List Record) : SchedState :=
  { df := records
    pending := initTasks records
    processed := 0
    failed := 0
    updates := []
    reports := []
    trace := (initTasks records).map (fun t => Event.submitted t.1 t.2)
    total := records.length }

/-- The whole processing loop under a given completion order. -/
def run (oracle : Nat → Stage → Option String) (records : List Record)
    (sched : List Task) : SchedState :=
  sched.foldl (step oracle) (initState records)

/-- Function `process_profiles` including the final bulk flush: the run's result for
the caller (the returned dataframe, or a propagated exception) paired with
the error messages shown via `st.error`.  The flush at drain is
`try: batch_update_cells(...) except Exception: st.error(...)` — executed
only when `update_requests` is non-empty, and its failure (modelled by
`flushOk = false`) is caught and displayed, never re-raised. -/
def processProfiles (oracle : Nat → Stage → Option String)
    (records : List Record) (sched : List Task) (flushOk : Bool) :
    Except String (List Record) × List String :=
  let final := run oracle records sched
  if final.updates = [] then (Except.ok final.df, [])
  else if flushOk then (Except.ok final.df, [])
  else (Except.ok final.df, ["Error updating Google Sheets"])

/-- A record that still needs some work: research missing, or draft
missing. -/
def needsWork (r : Record) : Bool :=
  decide (r.research = "") || decide (r.draft = "")

/-! Event predicates for the trace statements. -/

/-- An email-task submission event for row `i`. -/
def isSubE (i : Nat) : Event → Bool
  | Event.submitted j Stage.email => decide (j = i)
  | _ => false

/-- A successful research completion event for row `i`. -/
def isCompResOk (i : Nat) : Event → Bool
  | Event.completed j Stage.research true => decide (j = i)
  | _ => false

/-- A failed research completion event for row `i`. -/
def isCompResFail (i : Nat) : Event → Bool
  | Event.completed j Stage.research false => decide (j = i)
  | _ => false

/-- A submission event for task `t`. -/
def isSubT (t : Task) : Event → Bool
  | Event.submitted j s => decide ((j, s) = t)
  | _ => false

/-- A completion event (either outcome) for task `t`. -/
def isCompT (t : Task) : Event → Bool
  | Event.completed j s _ => decide ((j, s) = t)
  | _ => false

/-- Any completion event. -/
def isComp : Event → Bool
  | Event.completed _ _ _ => true
  | _ => false

/-- Any failed completion event. -/
def isFail : Event → Bool
  | Event.completed _ _ ok => !ok
  | _ => false

/-! ### Counting helpers -/

lemma countT_append (t : Task) (l₁ l₂ : List Task) :
    countT t (l₁ ++ l₂) = countT t l₁ + countT t l₂ := by
  induction l₁ with
  | nil => simp [countT]
  | cons u rest ih => simp [countT, ih]; omega

lemma countT_pos_iff_mem (t : Task) (l : List Task) :
    1 ≤ countT t l ↔ t ∈ l := by
  induction l with
  | nil => simp [countT]
  | cons u rest ih =>
    by_cases hu : u = t
    · subst hu; simp [countT]
    · simp [countT, hu, ih, Ne.symm hu]

lemma countT_eq_zero_of_not_mem {t : Task} {l : List Task} (h : t ∉ l) :
    countT t l = 0 := by
  by_contra hne
  exact h ((countT_pos_iff_mem t l).mp (by omega))

lemma countT_removeOne_self {c : Task} {l : List Task} (h : c ∈ l) :
    countT c (removeOne c l) + 1 = countT c l := by
  induction l with
  | nil => cases h
  | cons u rest ih =>
    by_cases hu : u = c
    · subst hu; simp [removeOne, countT]; omega
    · have hc : c ∈ rest := by
        cases h with
        | head => exact absurd rfl hu
        | tail _ h => exact h
      have hrec := ih hc
      simp only [removeOne, if_neg hu, countT]
      omega

lemma countT_removeOne_ne {x c : Task} (hx : x ≠ c) (l : List Task) :
    countT x (removeOne c l) = countT x l := by
  induction l with
  | nil => rfl
  | cons u rest ih =>
    by_cases hu : u = c
    · subst hu
      simp [removeOne, countT, Ne.symm hx]
    · simp [removeOne, countT, hu, ih]

lemma countT_ne_nil {t : Task} {l : List Task} (h : 1 ≤ countT t l) :
    l ≠ [] := by
  intro hl
  subst hl
  simp [countT] at h

lemma countT_singleton (t u : Task) :
    countT t [u] = if u = t then 1 else 0 := by
  simp [countT]

lemma if_false_bool {α : Type} (a b : α) :
    (if (false : Bool) = true then a else b) = b := rfl

/-! ### Event predicate reductions -/

@[simp] lemma isSubE_submitted (i j : Nat) (s : Stage) :
    isSubE i (Event.submitted j s) = (decide (s = Stage.email) && decide (j = i)) := by
  cases s <;> simp [isSubE]

@[simp] lemma isSubE_completed (i j : Nat) (s : Stage) (ok : Bool) :
    isSubE i (Event.completed j s ok) = false := rfl

@[simp] lemma isCompResOk_submitted (i j : Nat) (s : Stage) :
    isCompResOk i (Event.submitted j s) = false := rfl

@[simp] lemma isCompResOk_completed (i j : Nat) (s : Stage) (ok : Bool) :
    isCompResOk i (Event.completed j s ok) =
      (decide (s = Stage.research) && ok && decide (j = i)) := by
  cases s <;> cases ok <;> simp [isCompResOk]

@[simp] lemma isCompResFail_submitted (i j : Nat) (s : Stage) :
    isCompResFail i (Event.submitted j s) = false := rfl

@[simp] lemma isCompResFail_completed (i j : Nat) (s : Stage) (ok : Bool) :
    isCompResFail i (Event.completed j s ok) =
      (decide (s = Stage.research) && !ok && decide (j = i)) := by
  cases s <;> cases ok <;> simp [isCompResFail]

@[simp] lemma isSubT_submitted (t : Task) (j : Nat) (s : Stage) :
    isSubT t (Event.submitted j s) = decide ((j, s) = t) := rfl

@[simp] lemma isSubT_completed (t : Task) (j : Nat) (s : Stage) (ok : Bool) :
    isSubT t (Event.completed j s ok) = false := rfl

@[simp] lemma isCompT_submitted (t : Task) (j : Nat) (s : Stage) :
    isCompT t (Event.submitted j s) = false := rfl

@[simp] lemma isCompT_completed (t : Task) (j : Nat) (s : Stage) (ok : Bool) :
    isCompT t (Event.completed j s ok) = decide ((j, s) = t) := rfl

@[simp] lemma isComp_submitted (j : Nat) (s : Stage) :
    isComp (Event.submitted j s) = false := rfl

@[simp] lemma isComp_completed (j : Nat) (s : Stage) (ok : Bool) :
    isComp (Event.completed j s ok) = true := rfl

@[simp] lemma isFail_submitted (j : Nat) (s : Stage) :
    isFail (Event.submitted j s) = false := rfl

@[simp] lemma isFail_completed (j : Nat) (s : Stage) (ok : Bool) :
    isFail (Event.completed j s ok) = !ok := rfl

lemma countP_submissions (p : Event → Bool) (t0 : Task)
    (hp : ∀ u : Task, p (Event.submitted u.1 u.2) = decide (u = t0))
    (l : List Task) :
    (l.map (fun t => Event.submitted t.1 t.2)).countP p = countT t0 l := by
  induction l with
  | nil => simp [countT]
  | cons u rest ih =>
    simp only [List.map_cons, List.countP_cons, countT, ih, hp u]
    by_cases hu : u = t0 <;> simp [hu] <;> omega

lemma countP_submissions_zero (p : Event → Bool)
    (hp : ∀ u : Task, p (Event.submitted u.1 u.2) = false)
    (l : List Task) :
    (l.map (fun t => Event.submitted t.1 t.2)).countP p = 0 := by
  induction l with
  | nil => simp
  | cons u rest ih => simp [List.countP_cons, ih, hp u]

/-! ### Dataframe cell update lemmas -/

lemma setField_get?_ne (df : List Record) (n : Nat) (s : Stage) (v : String)
    (m : Nat) (h : m ≠ n) : (setField df n s v).get? m = df.get? m := by
  induction df generalizing n m with
  | nil => cases s <;> rfl
  | cons r rest ih =>
    match n, m with
    | 0, 0 => exact absurd rfl h
    | 0, m + 1 => cases s <;> rfl
    | n + 1, 0 => rfl
    | n + 1, m + 1 =>
      have := ih n m (fun hnm => h (by omega))
      cases s <;> simpa [setField] using this

lemma draftOf_setField_research (df : List Record) (n : Nat) (v : String)
    (i : Nat) : draftOf (setField df n Stage.research v) i = draftOf df i := by
  induction df generalizing n i with
  | nil => rfl
  | cons r rest ih =>
    match n, i with
    | 0, 0 => rfl
    | 0, i + 1 => rfl
    | n + 1, 0 => rfl
    | n + 1, i + 1 => simpa [setField, draftOf] using ih n i

lemma draftOf_setField_ne (df : List Record) (n : Nat) (s : Stage) (v : String)
    (i : Nat) (h : i ≠ n) : draftOf (setField df n s v) i = draftOf df i := by
  unfold draftOf
  rw [setField_get?_ne df n s v i h]

/-! ### Initial task scan lemmas -/

lemma mem_researchTasks (t : Task) :
    ∀ (k : Nat) (rs : List Record), t ∈ researchTasks k rs →
      t.2 = Stage.research ∧ k ≤ t.1 := by
  intro k rs
  induction rs generalizing k with
  | nil => intro h; cases h
  | cons r rest ih =>
    intro h
    simp only [researchTasks, List.mem_append] at h
    rcases h with h | h
    · rcases (by split at h <;> simp_all : t = (k, Stage.research)) with rfl
      exact ⟨rfl, Nat.le_refl k⟩
    · obtain ⟨hs, hk⟩ := ih (k + 1) h
      exact ⟨hs, by omega⟩

lemma mem_emailTasks (t : Task) :
    ∀ (k : Nat) (rs : List Record), t ∈ emailTasks k rs →
      t.2 = Stage.email ∧ k ≤ t.1 := by
  intro k rs
  induction rs generalizing k with
  | nil => intro h; cases h
  | cons r rest ih =>
    intro h
    simp only [emailTasks, List.mem_append] at h
    rcases h with h | h
    · rcases (by split at h <;> simp_all : t = (k, Stage.email)) with rfl
      exact ⟨rfl, Nat.le_refl k⟩
    · obtain ⟨hs, hk⟩ := ih (k + 1) h
      exact ⟨hs, by omega⟩

lemma countT_researchTasks_email (i k : Nat) (rs : List Record) :
    countT (i, Stage.email) (researchTasks k rs) = 0 :=
  countT_eq_zero_of_not_mem
    (fun h => by simpa using (mem_researchTasks _ k rs h).1)

lemma countT_emailTasks_research (i k : Nat) (rs : List Record) :
    countT (i, Stage.research) (emailTasks k rs) = 0 :=
  countT_eq_zero_of_not_mem
    (fun h => by simpa using (mem_emailTasks _ k rs h).1)

lemma countT_researchTasks_lt {i k : Nat} (h : i < k) (s : Stage)
    (rs : List Record) : countT (i, s) (researchTasks k rs) = 0 :=
  countT_eq_zero_of_not_mem
    (fun hm => by have := (mem_researchTasks _ k rs hm).2; omega)

lemma countT_emailTasks_lt {i k : Nat} (h : i < k) (s : Stage)
    (rs : List Record) : countT (i, s) (emailTasks k rs) = 0 :=
  countT_eq_zero_of_not_mem
    (fun hm => by have := (mem_emailTasks _ k rs hm).2; omega)

lemma countT_researchTasks_get :
    ∀ (rs : List Record) (k j : Nat) (r : Record), rs.get? j = some r →
      countT (k + j, Stage.research) (researchTasks k rs) =
        if r.research = "" then 1 else 0 := by
  intro rs
  induction rs with
  | nil => intro k j r h; cases h
  | cons r0 rest ih =>
    intro k j r h
    match j with
    | 0 =>
      have hr : r0 = r := by simpa using h
      subst hr
      simp only [researchTasks, countT_append, Nat.add_zero,
        countT_researchTasks_lt (Nat.lt_succ_self k) Stage.research rest]
      split <;> simp [countT]
    | j + 1 =>
      have hrest : rest.get? j = some r := by simpa using h
      have := ih (k + 1) j r hrest
      simp only [researchTasks, countT_append]
      rw [show k + (j + 1) = (k + 1) + j by omega, this]
      have hz : countT ((k + 1) + j, Stage.research)
          (if r0.research = "" then [(k, Stage.research)] else []) = 0 := by
        split <;> simp [countT] <;> omega
      omega

lemma countT_emailTasks_get :
    ∀ (rs : List Record) (k j : Nat) (r : Record), rs.get? j = some r →
      countT (k + j, Stage.email) (emailTasks k rs) =
        if r.research ≠ "" ∧ r.draft = "" then 1 else 0 := by
  intro rs
  induction rs with
  | nil => intro k j r h; cases h
  | cons r0 rest ih =>
    intro k j r h
    match j with
    | 0 =>
      have hr : r0 = r := by simpa using h
      subst hr
      simp only [emailTasks, countT_append, Nat.add_zero,
        countT_emailTasks_lt (Nat.lt_succ_self k) Stage.email rest]
      split <;> simp [countT]
    | j + 1 =>
      have hrest : rest.get? j = some r := by simpa using h
      have := ih (k + 1) j r hrest
      simp only [emailTasks, countT_append]
      rw [show k + (j + 1) = (k + 1) + j by omega, this]
      have hz : countT ((k + 1) + j, Stage.email)
          (if r0.research ≠ "" ∧ r0.draft = "" then [(k, Stage.email)] else []) = 0 := by
        split <;> simp [countT] <;> omega
      omega

lemma countT_initTasks_research {records : List Record} {i : Nat} {r : Record}
    (h : records.get? i = some r) :
    countT (i, Stage.research) (initTasks records) =
      if r.research = "" then 1 else 0 := by
  have h1 := countT_researchTasks_get records 0 i r h
  rw [Nat.zero_add] at h1
  simp [initTasks, countT_append, h1, countT_emailTasks_research]

lemma countT_initTasks_email {records : List Record} {i : Nat} {r : Record}
    (h : records.get? i = some r) :
    countT (i, Stage.email) (initTasks records) =
      if r.research ≠ "" ∧ r.draft = "" then 1 else 0 := by
  have h1 := countT_emailTasks_get records 0 i r h
  rw [Nat.zero_add] at h1
  simp [initTasks, countT_append, h1, countT_researchTasks_email]

/-! ### Run invariants -/

lemma foldl_preserve {σ τ : Type} (f : σ → τ → σ) (P : σ → Prop)
    (hstep : ∀ s t, P s → P (f s t)) :
    ∀ (l : List τ) (s : σ), P s → P (l.foldl f s) := by
  intro l
  induction l with
  | nil => intro s h; exact h
  | cons t rest ih => intro s h; exact ih (f s t) (hstep s t h)

/-- Bookkeeping: the processed counter counts completion events, the failed
counter counts failed completion events. -/
lemma run_bookkeeping (oracle : Nat → Stage → Option String)
    (records : List Record) (sched : List Task) :
    (run oracle records sched).processed =
      (run oracle records sched).trace.countP isComp ∧
    (run oracle records sched).failed =
      (run oracle records sched).trace.countP isFail := by
  apply foldl_preserve (step oracle)
    (fun st => st.processed = st.trace.countP isComp ∧
      st.failed = st.trace.countP isFail)
  · intro st c h
    obtain ⟨c1, c2⟩ := c
    obtain ⟨h1, h2⟩ := h
    simp only [step]
    by_cases hc : ((c1, c2) : Task) ∈ st.pending
    · simp only [if_pos hc]
      cases ho : oracle c1 c2 with
      | none => simp [List.countP_append, List.countP_cons, h1, h2]
      | some v =>
        by_cases hf : c2 = Stage.research ∧
            draftOf (setField st.df c1 c2 v) c1 = ""
        · simp only [if_pos hf]
          simp [List.countP_append, List.countP_cons, h1, h2]
        · simp only [if_neg hf]
          simp [List.countP_append, List.countP_cons, h1, h2]
    · simp only [if_neg hc]
      exact ⟨h1, h2⟩
  · constructor <;>
      simp [initState, countP_submissions_zero isComp (fun u => rfl),
        countP_submissions_zero isFail (fun u => rfl)]

/-- Conservation: for every task, pending occurrences plus completion
events equal submission events — no task is dropped or duplicated. -/
lemma run_conservation (oracle : Nat → Stage → Option String)
    (records : List Record) (sched : List Task) (t : Task) :
    countT t (run oracle records sched).pending +
      (run oracle records sched).trace.countP (isCompT t) =
    (run oracle records sched).trace.countP (isSubT t) := by
  apply foldl_preserve (step oracle)
    (fun st => countT t st.pending + st.trace.countP (isCompT t) =
      st.trace.countP (isSubT t))
  · intro st c h
    obtain ⟨c1, c2⟩ := c
    simp only [step]
    by_cases hc : ((c1, c2) : Task) ∈ st.pending
    · simp only [if_pos hc]
      have hrem : countT t (removeOne (c1, c2) st.pending) +
          (if (c1, c2) = t then 1 else 0) = countT t st.pending := by
        by_cases hct : t = ((c1, c2) : Task)
        · subst hct
          rw [if_pos rfl]
          exact countT_removeOne_self hc
        · rw [if_neg (fun he => hct (by rw [← he]))]
          rw [countT_removeOne_ne hct]
          omega
      cases ho : oracle c1 c2 with
      | none =>
        simp only [List.countP_append, List.countP_cons, List.countP_nil,
          isCompT_completed, isSubT_completed, if_false_bool]
        simp only [decide_eq_true_eq]
        omega
      | some v =>
        by_cases hf : c2 = Stage.research ∧
            draftOf (setField st.df c1 c2 v) c1 = ""
        · simp only [if_pos hf, countT_append, countT_singleton,
            List.countP_append, List.countP_cons, List.countP_nil,
            isCompT_completed, isSubT_completed, isCompT_submitted,
            isSubT_submitted, if_false_bool]
          simp only [decide_eq_true_eq]
          omega
        · simp only [if_neg hf, List.countP_append, List.countP_cons,
            List.countP_nil, isCompT_completed, isSubT_completed,
            if_false_bool]
          simp only [decide_eq_true_eq]
          omega
    · simp only [if_neg hc]
      exact h
  · simp [initState, countP_submissions (isSubT t) t
      (fun u => by simp [Prod.mk.eta]),
      countP_submissions_zero (isCompT t) (fun u => rfl)]

/-- Research-stage submission events never change after the initial scan:
the loop only ever submits email tasks. -/
lemma run_research_submissions (oracle : Nat → Stage → Option String)
    (records : List Record) (sched : List Task) (j : Nat) :
    (run oracle records sched).trace.countP (isSubT (j, Stage.research)) =
      countT (j, Stage.research) (initTasks records) := by
  apply foldl_preserve (step oracle)
    (fun st => st.trace.countP (isSubT (j, Stage.research)) =
      countT (j, Stage.research) (initTasks records))
  · intro st c h
    obtain ⟨c1, c2⟩ := c
    simp only [step]
    by_cases hc : ((c1, c2) : Task) ∈ st.pending
    · simp only [if_pos hc]
      cases ho : oracle c1 c2 with
      | none => simpa [List.countP_append, List.countP_cons] using h
      | some v =>
        by_cases hf : c2 = Stage.research ∧
            draftOf (setField st.df c1 c2 v) c1 = ""
        · simp only [if_pos hf]
          simpa [List.countP_append, List.countP_cons] using h
        · simp only [if_neg hf]
          simpa [List.countP_append, List.countP_cons] using h
    · simpa [if_neg hc] using h
  · simp [initState, countP_submissions (isSubT (j, Stage.research))
      (j, Stage.research) (fun u => by simp [Prod.mk.eta])]

/-- A step consuming a task of another row leaves row `i`'s pending tasks,
its trace events and its draft cell untouched. -/
lemma step_frame_ne (oracle : Nat → Stage → Option String) (st : SchedState)
    (c1 : Nat) (c2 : Stage) (i : Nat) (hc1 : c1 ≠ i) :
    countT (i, Stage.research) (step oracle st (c1, c2)).pending =
      countT (i, Stage.research) st.pending ∧
    countT (i, Stage.email) (step oracle st (c1, c2)).pending =
      countT (i, Stage.email) st.pending ∧
    (step oracle st (c1, c2)).trace.countP (isSubE i) =
      st.trace.countP (isSubE i) ∧
    (step oracle st (c1, c2)).trace.countP (isCompResOk i) =
      st.trace.countP (isCompResOk i) ∧
    draftOf (step oracle st (c1, c2)).df i = draftOf st.df i := by
  have hne_r : ((i, Stage.research) : Task) ≠ (c1, c2) := by
    intro he
    exact hc1 ((congrArg Prod.fst he).symm)
  have hne_e : ((i, Stage.email) : Task) ≠ (c1, c2) := by
    intro he
    exact hc1 ((congrArg Prod.fst he).symm)
  simp only [step]
  by_cases hc : ((c1, c2) : Task) ∈ st.pending
  swap
  · simp [if_neg hc]
  simp only [if_pos hc]
  cases ho : oracle c1 c2 with
  | none =>
    simp [countT_removeOne_ne hne_r, countT_removeOne_ne hne_e,
      List.countP_append, List.countP_cons, hc1]
  | some v =>
    by_cases hf : c2 = Stage.research ∧ draftOf (setField st.df c1 c2 v) c1 = ""
    · simp only [if_pos hf]
      simp [countT_append, countT_singleton, countT_removeOne_ne hne_r,
        countT_removeOne_ne hne_e, List.countP_append, List.countP_cons,
        hc1, draftOf_setField_ne st.df c1 c2 v i (Ne.symm hc1),
        Prod.ext_iff]
    · simp only [if_neg hf]
      simp [countT_removeOne_ne hne_r, countT_removeOne_ne hne_e,
        List.countP_append, List.countP_cons, hc1,
        draftOf_setField_ne st.df c1 c2 v i (Ne.symm hc1)]

/-- The per-row invariant behind C1: for a row `i` whose research call
succeeds (oracle gives `some v`) and which starts with empty research and
draft cells, the loop is always in one of two phases: research still
pending (no email submission yet, draft still empty), or research
successfully completed and exactly one email submission made. -/
def FollowInv (i : Nat) (st : SchedState) : Prop :=
  (countT (i, Stage.research) st.pending = 1 ∧
   countT (i, Stage.email) st.pending = 0 ∧
   st.trace.countP (isSubE i) = 0 ∧
   st.trace.countP (isCompResOk i) = 0 ∧
   draftOf st.df i = "") ∨
  (countT (i, Stage.research) st.pending = 0 ∧
   st.trace.countP (isSubE i) = 1 ∧
   st.trace.countP (isCompResOk i) = 1)

lemma step_FollowInv (oracle : Nat → Stage → Option String) (i : Nat)
    (v : String) (hora : oracle i Stage.research = some v)
    (st : SchedState) (c : Task) (h : FollowInv i st) :
    FollowInv i (step oracle st c) := by
  obtain ⟨c1, c2⟩ := c
  by_cases hc1 : c1 = i
  swap
  · obtain ⟨f1, f2, f3, f4, f5⟩ := step_frame_ne oracle st c1 c2 i hc1
    unfold FollowInv at h ⊢
    rw [f1, f2, f3, f4, f5]
    exact h
  subst hc1
  cases c2 with
  | research =>
    simp only [step]
    by_cases hc : ((c1, Stage.research) : Task) ∈ st.pending
    swap
    · simp only [if_neg hc]
      exact h
    rcases h with hA | hB
    swap
    · exfalso
      have hpos := (countT_pos_iff_mem ((c1, Stage.research) : Task) st.pending).mpr hc
      omega
    obtain ⟨a1, a2, a3, a4, a5⟩ := hA
    simp only [if_pos hc, hora]
    have hdraft : draftOf (setField st.df c1 Stage.research v) c1 = "" := by
      rw [draftOf_setField_research]
      exact a5
    have hcond : True ∧
        draftOf (setField st.df c1 Stage.research v) c1 = "" := ⟨trivial, hdraft⟩
    simp only [if_pos hcond]
    right
    refine ⟨?_, ?_, ?_⟩
    · have hrem := countT_removeOne_self hc
      have hsing : countT (c1, Stage.research)
          [((c1, Stage.email) : Task)] = 0 := by
        simp [countT_singleton]
      rw [countT_append, hsing]
      omega
    · simp [List.countP_append, List.countP_cons, a3]
    · simp [List.countP_append, List.countP_cons, a4]
  | email =>
    simp only [step]
    by_cases hc : ((c1, Stage.email) : Task) ∈ st.pending
    swap
    · simp only [if_neg hc]
      exact h
    rcases h with hA | hB
    · exfalso
      have hpos := (countT_pos_iff_mem ((c1, Stage.email) : Task) st.pending).mpr hc
      omega
    obtain ⟨b1, b2, b3⟩ := hB
    simp only [if_pos hc]
    have hne_r : ((c1, Stage.research) : Task) ≠ (c1, Stage.email) := by
      simp
    cases ho : oracle c1 Stage.email with
    | none =>
      right
      refine ⟨?_, ?_, ?_⟩
      · rw [countT_removeOne_ne hne_r]
        exact b1
      · simp [List.countP_append, List.countP_cons, b2]
      · simp [List.countP_append, List.countP_cons, b3]
    | some v' =>
      have hnf : ¬ (Stage.email = Stage.research ∧
          draftOf (setField st.df c1 Stage.email v') c1 = "") := by
        rintro ⟨he, -⟩
        cases he
      simp only [if_neg hnf]
      right
      refine ⟨?_, ?_, ?_⟩
      · rw [countT_removeOne_ne hne_r]
        exact b1
      · simp [List.countP_append, List.countP_cons, b2]
      · simp [List.countP_append, List.countP_cons, b3]

lemma run_FollowInv (oracle : Nat → Stage → Option String)
    (records : List Record) (i : Nat) (r : Record) (v : String)
    (hget : records.get? i = some r) (hres : r.research = "")
    (hdr : r.draft = "") (hora : oracle i Stage.research = some v)
    (sched : List Task) : FollowInv i (run oracle records sched) := by
  apply foldl_preserve (step oracle) (FollowInv i)
    (fun st c h => step_FollowInv oracle i v hora st c h)
  left
  have hcr := countT_initTasks_research hget
  rw [if_pos hres] at hcr
  have hce := countT_initTasks_email hget
  rw [if_neg (by simp [hres])] at hce
  refine ⟨hcr, hce, ?_, ?_, ?_⟩
  · rw [show (initState records).trace =
      (initTasks records).map (fun t => Event.submitted t.1 t.2) from rfl]
    rw [countP_submissions (isSubE i) (i, Stage.email)
      (fun u => by
        rcases u with ⟨a, b⟩
        cases b <;> simp [Prod.ext_iff, And.comm])]
    exact hce
  · exact countP_submissions_zero (isCompResOk i) (fun u => rfl) _
  · show draftOf records i = ""
    unfold draftOf
    rw [hget]
    simp [hdr]

/-- The per-row invariant behind C3: for a row `i` whose research call
fails permanently, no email submission for `i` and no successful research
completion for `i` ever appears in the trace. -/
lemma run_FailInv (oracle : Nat → Stage → Option String)
    (records : List Record) (i : Nat) (r : Record)
    (hget : records.get? i = some r) (hres : r.research = "")
    (hora : oracle i Stage.research = none) (sched : List Task) :
    (run oracle records sched).trace.countP (isSubE i) = 0 ∧
    (run oracle records sched).trace.countP (isCompResOk i) = 0 := by
  apply foldl_preserve (step oracle)
    (fun st => st.trace.countP (isSubE i) = 0 ∧
      st.trace.countP (isCompResOk i) = 0)
  · intro st c h
    obtain ⟨c1, c2⟩ := c
    by_cases hc1 : c1 = i
    swap
    · obtain ⟨-, -, f3, f4, -⟩ := step_frame_ne oracle st c1 c2 i hc1
      rw [f3, f4]
      exact h
    subst hc1
    obtain ⟨h1, h2⟩ := h
    cases c2 with
    | research =>
      simp only [step, hora]
      by_cases hc : ((c1, Stage.research) : Task) ∈ st.pending
      · simp only [if_pos hc]
        constructor <;> simp [List.countP_append, List.countP_cons, h1, h2]
      · simp only [if_neg hc]
        exact ⟨h1, h2⟩
    | email =>
      simp only [step]
      by_cases hc : ((c1, Stage.email) : Task) ∈ st.pending
      swap
      · simp only [if_neg hc]
        exact ⟨h1, h2⟩
      simp only [if_pos hc]
      cases ho : oracle c1 Stage.email with
      | none =>
        constructor <;> simp [List.countP_append, List.countP_cons, h1, h2]
      | some v' =>
        have hnf : ¬ (Stage.email = Stage.research ∧
            draftOf (setField st.df c1 Stage.email v') c1 = "") := by
          rintro ⟨he, -⟩
          cases he
        simp only [if_neg hnf]
        constructor <;> simp [List.countP_append, List.countP_cons, h1, h2]
  · constructor
    · rw [show (initState records).trace =
        (initTasks records).map (fun t => Event.submitted t.1 t.2) from rfl]
      rw [countP_submissions (isSubE i) (i, Stage.email)
        (fun u => by
          rcases u with ⟨a, b⟩
          cases b <;> simp [Prod.ext_iff, And.comm])]
      have hce := countT_initTasks_email hget
      rw [if_neg (by simp [hres])] at hce
      exact hce
    · exact countP_submissions_zero (isCompResOk i) (fun u => rfl) _

/-- Completions of row `i`'s research task split into successful and failed
ones. -/
lemma countP_compT_split (i : Nat) (l : List Event) :
    l.countP (isCompT (i, Stage.research)) =
      l.countP (isCompResOk i) + l.countP (isCompResFail i) := by
  induction l with
  | nil => simp
  | cons e rest ih =>
    rcases e with ⟨j, s⟩ | ⟨j, s, ok⟩
    · simp [List.countP_cons, ih]
    · cases s <;> cases ok <;>
        by_cases hj : j = i <;>
        simp [List.countP_cons, ih, hj, Prod.ext_iff] <;>
        omega

/-- Progress reporting invariant: the reported values are, in order,
`min((j+1) / (len(df)*2), 1)` for `j = 0, 1, ...` up to the processed
count, whatever the batch contents and completion order. -/
lemma run_reports (oracle : Nat → Stage → Option String)
    (records : List Record) (sched : List Task) :
    (run oracle records sched).total = records.length ∧
    (run oracle records sched).reports =
      (List.range (run oracle records sched).processed).map
        (fun j => min (((j + 1 : Nat) : ℚ) / ((records.length : ℚ) * 2)) 1) := by
  apply foldl_preserve (step oracle)
    (fun st => st.total = records.length ∧
      st.reports = (List.range st.processed).map
        (fun j => min (((j + 1 : Nat) : ℚ) / ((records.length : ℚ) * 2)) 1))
  · intro st c h
    obtain ⟨c1, c2⟩ := c
    obtain ⟨h1, h2⟩ := h
    simp only [step]
    by_cases hc : ((c1, c2) : Task) ∈ st.pending
    swap
    · simp only [if_neg hc]
      exact ⟨h1, h2⟩
    simp only [if_pos hc]
    have hrep : st.reports ++
        [min (((st.processed + 1 : Nat) : ℚ) / ((st.total : ℚ) * 2)) 1] =
        (List.range (st.processed + 1)).map
          (fun j => min (((j + 1 : Nat) : ℚ) / ((records.length : ℚ) * 2)) 1) := by
      rw [List.range_succ, List.map_append, h2, h1]
      rfl
    cases ho : oracle c1 c2 with
    | none => exact ⟨h1, hrep⟩
    | some v =>
      by_cases hf : c2 = Stage.research ∧
          draftOf (setField st.df c1 c2 v) c1 = ""
      · simp only [if_pos hf]
        exact ⟨h1, hrep⟩
      · simp only [if_neg hf]
        exact ⟨h1, hrep⟩
  · exact ⟨rfl, rfl⟩

/-! ### The scheduler claims -/

/-- Claim C2: The initial task set contains a research task for row `i` iff
its research cell is empty, and an email task iff its research cell is
non-empty and its draft cell empty; a batch whose records all have both
cells populated yields no tasks at all. -/
theorem initTasks_characterization (records : List Record) (i : Nat)
    (r : Record) (hget : records.get? i = some r) :
    (((i, Stage.research) : Task) ∈ initTasks records ↔ r.research = "") ∧
    (((i, Stage.email) : Task) ∈ initTasks records ↔
      (r.research ≠ "" ∧ r.draft = "")) ∧
    ((∀ s ∈ records, s.research ≠ "" ∧ s.draft ≠ "") →
      initTasks records = []) := by
  refine ⟨?_, ?_, ?_⟩
  · rw [← countT_pos_iff_mem, countT_initTasks_research hget]
    by_cases hr : r.research = "" <;> simp [hr]
  · rw [← countT_pos_iff_mem, countT_initTasks_email hget]
    by_cases hr : r.research ≠ "" ∧ r.draft = "" <;> simp [hr]
  · intro hall
    have hr : ∀ (k : Nat) (rs : List Record),
        (∀ s ∈ rs, s.research ≠ "") → researchTasks k rs = [] := by
      intro k rs
      induction rs generalizing k with
      | nil => intro _; rfl
      | cons r0 rest ih =>
        intro hv
        simp only [researchTasks, if_neg (hv r0 (List.mem_cons_self r0 rest)),
          List.nil_append]
        exact ih (k + 1) (fun s hs => hv s (List.mem_cons_of_mem r0 hs))
    have he : ∀ (k : Nat) (rs : List Record),
        (∀ s ∈ rs, s.draft ≠ "") → emailTasks k rs = [] := by
      intro k rs
      induction rs generalizing k with
      | nil => intro _; rfl
      | cons r0 rest ih =>
        intro hv
        have hnc : ¬ (r0.research ≠ "" ∧ r0.draft = "") :=
          fun hx => hv r0 (List.mem_cons_self r0 rest) hx.2
        simp only [emailTasks, if_neg hnc, List.nil_append]
        exact ih (k + 1) (fun s hs => hv s (List.mem_cons_of_mem r0 hs))
    unfold initTasks
    rw [hr 0 records (fun s hs => (hall s hs).1),
      he 0 records (fun s hs => (hall s hs).2)]
    rfl

/-- Witness for C2 on a two-row batch: row 0 needs research only, row 1
has research and needs a draft. -/
theorem initTasks_characterization_witness :
    (((1, Stage.research) : Task) ∈ initTasks [⟨"", ""⟩, ⟨"x", ""⟩] ↔
      Record.research ⟨"x", ""⟩ = "") ∧
    (((1, Stage.email) : Task) ∈ initTasks [⟨"", ""⟩, ⟨"x", ""⟩] ↔
      (Record.research ⟨"x", ""⟩ ≠ "" ∧ Record.draft ⟨"x", ""⟩ = "")) ∧
    ((∀ s ∈ ([⟨"", ""⟩, ⟨"x", ""⟩] : List Record),
        s.research ≠ "" ∧ s.draft ≠ "") →
      initTasks [⟨"", ""⟩, ⟨"x", ""⟩] = []) :=
  initTasks_characterization [⟨"", ""⟩, ⟨"x", ""⟩] 1 ⟨"x", ""⟩ rfl

/-- Claim C1: For a row whose research call succeeds while its draft cell is
still empty: across any completion order, at most one email task is ever
submitted for it, exactly one once the pool drains, and every email
submission for it is preceded by a successful research completion for it
(submission events never outnumber successful research completions). -/
theorem scheduler_email_followon_exactly_once
    (oracle : Nat → Stage → Option String) (records : List Record)
    (i : Nat) (r : Record) (v : String)
    (hget : records.get? i = some r) (hres : r.research = "")
    (hdr : r.draft = "") (hora : oracle i Stage.research = some v) :
    (∀ sched : List Task,
      (run oracle records sched).trace.countP (isSubE i) ≤ 1) ∧
    (∀ sched : List Task, (run oracle records sched).pending = [] →
      (run oracle records sched).trace.countP (isSubE i) = 1) ∧
    (∀ sched : List Task,
      (run oracle records sched).trace.countP (isSubE i) ≤
        (run oracle records sched).trace.countP (isCompResOk i)) := by
  refine ⟨?_, ?_, ?_⟩
  · intro sched
    rcases run_FollowInv oracle records i r v hget hres hdr hora sched with
      ⟨-, -, h3, -, -⟩ | ⟨-, h2, -⟩
    · omega
    · omega
  · intro sched hdrain
    rcases run_FollowInv oracle records i r v hget hres hdr hora sched with
      ⟨h1, -, -, -, -⟩ | ⟨-, h2, -⟩
    · exfalso
      have := countT_ne_nil (t := (i, Stage.research))
        (l := (run oracle records sched).pending) (by omega)
      exact this hdrain
    · exact h2
  · intro sched
    rcases run_FollowInv oracle records i r v hget hres hdr hora sched with
      ⟨-, -, h3, h4, -⟩ | ⟨-, h2, h3⟩
    · omega
    · omega

/-- The always-succeeding oracle used by the concrete runs below. -/
def oracleRE : Nat → Stage → Option String :=
  fun _ s =>
    match s with
    | Stage.research => some "R"
    | Stage.email => some "E"

/-- Witness for C1: a one-row batch with both cells empty, drained by
completing the research task and then the follow-on email task, submits
exactly one email task. -/
theorem scheduler_email_followon_exactly_once_witness :
    (run oracleRE [⟨"", ""⟩]
        [(0, Stage.research), (0, Stage.email)]).trace.countP (isSubE 0) = 1 :=
  (scheduler_email_followon_exactly_once oracleRE [⟨"", ""⟩] 0 ⟨"", ""⟩ "R"
      rfl rfl rfl rfl).2.1
    [(0, Stage.research), (0, Stage.email)] (by decide)

/-- The always-failing oracle (every provider call exhausts its retries). -/
def oracleFail : Nat → Stage → Option String := fun _ _ => none

/-- Claim C3: For a row whose research call fails permanently: no email task
is ever submitted for it under any completion order; once the pool drains
its research task has completed with failure exactly once; the failure is
counted by the failed and processed counters (which count exactly the
failed completions and all completions); and no other task is abandoned —
at drain every submitted task has a completion event. -/
theorem scheduler_failed_research_no_email
    (oracle : Nat → Stage → Option String) (records : List Record)
    (i : Nat) (r : Record)
    (hget : records.get? i = some r) (hres : r.research = "")
    (hora : oracle i Stage.research = none) :
    (∀ sched : List Task,
      (run oracle records sched).trace.countP (isSubE i) = 0) ∧
    (∀ sched : List Task, (run oracle records sched).pending = [] →
      (run oracle records sched).trace.countP (isCompResFail i) = 1) ∧
    (∀ sched : List Task,
      (run oracle records sched).failed =
        (run oracle records sched).trace.countP isFail ∧
      (run oracle records sched).processed =
        (run oracle records sched).trace.countP isComp) ∧
    (∀ (sched : List Task) (t : Task), (run oracle records sched).pending = [] →
      (run oracle records sched).trace.countP (isCompT t) =
        (run oracle records sched).trace.countP (isSubT t)) := by
  have hdrain_cons : ∀ (sched : List Task) (t : Task),
      (run oracle records sched).pending = [] →
      (run oracle records sched).trace.countP (isCompT t) =
        (run oracle records sched).trace.countP (isSubT t) := by
    intro sched t hd
    have hcons := run_conservation oracle records sched t
    rw [hd] at hcons
    simpa [countT] using hcons
  refine ⟨?_, ?_, ?_, hdrain_cons⟩
  · intro sched
    exact (run_FailInv oracle records i r hget hres hora sched).1
  · intro sched hd
    have hsub := run_research_submissions oracle records sched i
    have hcr := countT_initTasks_research hget
    rw [if_pos hres] at hcr
    have hcomp := hdrain_cons sched (i, Stage.research) hd
    have hsplit := countP_compT_split i (run oracle records sched).trace
    have hok := (run_FailInv oracle records i r hget hres hora sched).2
    omega
  · intro sched
    exact ⟨(run_bookkeeping oracle records sched).2,
      (run_bookkeeping oracle records sched).1⟩

/-- Witness for C3: a one-row batch whose research call fails; the drained
run records one failed research completion and no email submission. -/
theorem scheduler_failed_research_no_email_witness :
    (run oracleFail [⟨"", ""⟩] [(0, Stage.research)]).trace.countP
      (isCompResFail 0) = 1 ∧
    (run oracleFail [⟨"", ""⟩] [(0, Stage.research)]).trace.countP
      (isSubE 0) = 0 :=
  ⟨(scheduler_failed_research_no_email oracleFail [⟨"", ""⟩] 0 ⟨"", ""⟩
      rfl rfl rfl).2.1 [(0, Stage.research)] (by decide),
   (scheduler_failed_research_no_email oracleFail [⟨"", ""⟩] 0 ⟨"", ""⟩
      rfl rfl rfl).1 [(0, Stage.research)]⟩

/-- Claim C6, counterexample: The claimed progress denominator — 2 × the
number of records *needing any work* — is wrong: on a two-row batch whose
first row is fully populated (needs no work), completing the one research
task reports `1/4` (the code divides by `len(df) * 2`), not
`min(1/(2·1), 1) = 1/2` as the claim requires. -/
theorem progress_denominator_counterexample :
    (run oracleRE [⟨"x", "y"⟩, ⟨"", ""⟩] [(1, Stage.research)]).reports =
      [(1 : ℚ) / 4] ∧
    List.countP needsWork [⟨"x", "y"⟩, ⟨"", ""⟩] = 1 ∧
    ¬ ((1 : ℚ) / 4 =
        min ((1 : ℚ) / (2 * (List.countP needsWork
          [⟨"x", "y"⟩, ⟨"", ""⟩] : Nat))) 1) := by
  refine ⟨?_, by decide, ?_⟩
  · have hp : (run oracleRE [⟨"x", "y"⟩, ⟨"", ""⟩]
        [(1, Stage.research)]).processed = 1 := by decide
    have hr := (run_reports oracleRE [⟨"x", "y"⟩, ⟨"", ""⟩]
      [(1, Stage.research)]).2
    rw [hp] at hr
    rw [hr]
    rw [show List.range 1 = [0] from by decide]
    simp only [List.map_cons, List.map_nil]
    norm_num [min_def]
  · have : List.countP needsWork [(⟨"x", "y"⟩ : Record), ⟨"", ""⟩] = 1 := by decide
    rw [this]
    norm_num [min_def]

/-- Claim C6, amended: After every task completion (success or failure) the
progress value reported equals completed-units divided by 2 × the total
number of records in the batch (not just those needing work), capped at
1.0: the reports are exactly `min((j+1)/(len·2), 1)` for `j` below the
processed count. -/
theorem scheduler_progress_reports (oracle : Nat → Stage → Option String)
    (records : List Record) (sched : List Task) :
    (run oracle records sched).reports =
      (List.range (run oracle records sched).processed).map
        (fun j => min (((j + 1 : Nat) : ℚ) / ((records.length : ℚ) * 2)) 1) :=
  (run_reports oracle records sched).2

/-- Claim C7, counterexample: A failing final flush is not surfaced to the
caller as a terminal error: on a drained one-row run with a failing flush,
`process_profiles` still returns the updated dataframe (an `ok` result,
not an error), even though the flush failure was reported to the error
sink. -/
theorem flush_failure_counterexample :
    (processProfiles oracleRE [⟨"", ""⟩]
        [(0, Stage.research), (0, Stage.email)] false).2 =
      ["Error updating Google Sheets"] ∧
    (processProfiles oracleRE [⟨"", ""⟩]
        [(0, Stage.research), (0, Stage.email)] false).1 =
      Except.ok [⟨"R", "E"⟩] := by
  constructor
  · decide
  · rfl

/-- Claim C7, amended: A failing final flush does not roll back in-memory
record state and does not propagate to the run's caller: the run returns
the same updated dataframe whether or not the flush succeeds, and the
failure is only reported to the error sink (when there was anything to
flush); no exception leaves the scheduler in either case. -/
theorem flush_failure_not_propagated (oracle : Nat → Stage → Option String)
    (records : List Record) (sched : List Task) :
    (processProfiles oracle records sched false).1 =
      Except.ok (run oracle records sched).df ∧
    (processProfiles oracle records sched true).1 =
      (processProfiles oracle records sched false).1 ∧
    ((run oracle records sched).updates ≠ [] →
      (processProfiles oracle records sched false).2 =
        ["Error updating Google Sheets"]) := by
  unfold processProfiles
  by_cases h : (run oracle records sched).updates = [] <;> simp [h]

/-- Witness for the amended C7 at a concrete drained run with a non-empty
update batch. -/
theorem flush_failure_not_propagated_witness :
    (processProfiles oracleRE [⟨"", ""⟩]
        [(0, Stage.research), (0, Stage.email)] false).2 =
      ["Error updating Google Sheets"] :=
  (flush_failure_not_propagated oracleRE [⟨"", ""⟩]
      [(0, Stage.research), (0, Stage.email)]).2.2 (by decide)

end Enrichee
